import Mathlib

/-!
Verification of the FID-infinity / IS-infinity extrapolation module
(score_infinity.py) against its design specification.

The shallow embedding below translates the relevant parts of the source
into Lean.  Python floats are modelled as exact rationals where the code
only performs field operations, and as real numbers where transcendental
functions (log, exp, softmax) occur.  Fallible code is modelled with
Except over an explicit Python-error type.  External collaborators that
the specification places out of scope (the pretrained feature extractor,
dataset loading, torch tensors and random sources) enter as function
parameters whose outputs the embedded functions consume.
-/

/-- Runtime errors that the embedded Python code can raise. -/
inductive PyError where
  | attributeError : String → PyError
  | assertionError : String → PyError
  | typeError : String → PyError
  | valueError : String → PyError

/-- Embeds np.linspace(start, stop, num) over exact rationals
(score_infinity.py lines 103, 158, 209, 256): num evenly spaced values
from start to stop inclusive; entry i is start + i * (stop - start)/(num - 1).
In exact arithmetic the final entry equals stop, matching the endpoint
guarantee of numpy. -/
def np_linspace (start stop : ℚ) (num : ℕ) : List ℚ :=
  (List.range num).map (fun (i : ℕ) => start + (i : ℚ) * ((stop - start) / ((num : ℚ) - 1)))

/-- Embeds ndarray.astype(int32): truncation toward zero followed by
wrapping into the signed 32-bit range. -/
def astype_int32 (q : ℚ) : ℤ :=
  (Int.tdiv q.num (q.den : ℤ) + 2 ^ 31) % 2 ^ 32 - 2 ^ 31

/-- Embeds the ladder construction
np.linspace(min_fake, num_im, num_points).astype(int32)
(score_infinity.py lines 103 and 158). -/
def fid_batches (min_fake num_im num_points : ℕ) : List ℤ :=
  (np_linspace min_fake num_im num_points).map astype_int32

/-- Mean of a list of field elements, as np.mean of a 1-D array. -/
def list_mean {α : Type} [LinearOrderedField α] (l : List α) : α :=
  l.sum / l.length

/-- Centered second moment of the regressor column: the sum of squared
deviations of the x-values from their mean. -/
def sxx {α : Type} [LinearOrderedField α] (xs : List α) : α :=
  (xs.map (fun x => (x - list_mean xs) ^ 2)).sum

/-- Centered cross moment of the regressor column and the target column. -/
def sxy {α : Type} [LinearOrderedField α] (xs ys : List α) : α :=
  (List.zipWith (fun x y => (x - list_mean xs) * (y - list_mean ys)) xs ys).sum

/-- Slope of the ordinary-least-squares line fit by
LinearRegression().fit(x.reshape(-1,1), y) for a single regressor
(score_infinity.py lines 114, 171, 220, 267). -/
def ols_slope {α : Type} [LinearOrderedField α] (xs ys : List α) : α :=
  sxy xs ys / sxx xs

/-- Intercept of the ordinary-least-squares line. -/
def ols_intercept {α : Type} [LinearOrderedField α] (xs ys : List α) : α :=
  list_mean ys - ols_slope xs ys * list_mean xs

/-- Embeds reg.predict at a point x: the fitted line evaluated at x
(score_infinity.py lines 116, 173, 222, 268 evaluate it at x = 0). -/
def reg_predict {α : Type} [LinearOrderedField α] (xs ys : List α) (x : α) : α :=
  ols_intercept xs ys + ols_slope xs ys * x

section OlsLemmas

variable {α : Type} [LinearOrderedField α]

theorem sum_map_affine (l : List α) (a b : α) :
    (l.map (fun x => a + b * x)).sum = (l.length : α) * a + b * l.sum := by
  induction l with
  | nil => simp
  | cons x t ih =>
    simp only [List.map_cons, List.sum_cons, ih, List.length_cons]
    push_cast
    ring

theorem list_mean_map_affine (l : List α) (a b : α) (h : l ≠ []) :
    list_mean (l.map (fun x => a + b * x)) = a + b * list_mean l := by
  have hn : (l.length : α) ≠ 0 := Nat.cast_ne_zero.mpr (List.length_pos.mpr h).ne'
  unfold list_mean
  rw [List.length_map, sum_map_affine]
  field_simp
  ring

omit [LinearOrderedField α] in
theorem zipWith_self_map {β γ : Type} (f : α → β → γ) (g : α → β) (l : List α) :
    List.zipWith f l (l.map g) = l.map (fun x => f x (g x)) := by
  induction l with
  | nil => simp
  | cons x t ih => simp [ih]

theorem sum_of_sq_zero (l : List α) (h : l.sum = 0) (hn : ∀ x ∈ l, 0 ≤ x) :
    ∀ x ∈ l, x = 0 := by
  induction l with
  | nil => simp
  | cons y t ih =>
    have hy : 0 ≤ y := hn y (List.mem_cons_self y t)
    have ht : 0 ≤ t.sum := List.sum_nonneg (fun x hx => hn x (List.mem_cons_of_mem y hx))
    have hsum : y + t.sum = 0 := by simpa using h
    have hy0 : y = 0 := le_antisymm (by linarith) hy
    have ht0 : t.sum = 0 := by linarith
    intro x hx
    rcases List.mem_cons.mp hx with hxy | hxt
    · exact hxy.trans hy0
    · exact ih ht0 (fun z hz => hn z (List.mem_cons_of_mem y hz)) x hxt

theorem sxx_ne_zero (xs : List α) (u v : α) (hu : u ∈ xs) (hv : v ∈ xs)
    (huv : u ≠ v) : sxx xs ≠ 0 := by
  intro h0
  have hz := sum_of_sq_zero _ h0 (fun x hx => by
    rcases List.mem_map.mp hx with ⟨y, _, rfl⟩
    exact sq_nonneg _)
  have hu0 : (u - list_mean xs) ^ 2 = 0 :=
    hz _ (List.mem_map_of_mem _ hu)
  have hv0 : (v - list_mean xs) ^ 2 = 0 :=
    hz _ (List.mem_map_of_mem _ hv)
  have hu1 : u = list_mean xs := by
    have := pow_eq_zero_iff (n := 2) (by norm_num) |>.mp hu0
    linarith [this]
  have hv1 : v = list_mean xs := by
    have := pow_eq_zero_iff (n := 2) (by norm_num) |>.mp hv0
    linarith [this]
  exact huv (hu1.trans hv1.symm)

theorem sxy_affine (xs : List α) (a b : α) (h : xs ≠ []) :
    sxy xs (xs.map (fun x => a + b * x)) = b * sxx xs := by
  unfold sxy
  rw [zipWith_self_map]
  rw [list_mean_map_affine xs a b h]
  have hcong : (xs.map fun x =>
      (x - list_mean xs) * (a + b * x - (a + b * list_mean xs))) =
      xs.map fun x => b * (x - list_mean xs) ^ 2 := by
    apply List.map_congr_left
    intro x _
    ring
  rw [hcong, List.sum_map_mul_left]
  rfl

end OlsLemmas

theorem astype_int32_of_nonneg (q : ℚ) (n : ℤ) (h1 : (n : ℚ) ≤ q)
    (h2 : q < n + 1) (hlo : 0 ≤ n) (hhi : n < 2 ^ 31) : astype_int32 q = n := by
  have h0 : (0 : ℚ) ≤ q := le_trans (by exact_mod_cast hlo) h1
  have hfl : ⌊q⌋ = n := Int.floor_eq_iff.mpr ⟨h1, by exact_mod_cast h2⟩
  have htd : Int.tdiv q.num (q.den : ℤ) = q.num / (q.den : ℤ) :=
    Int.tdiv_eq_ediv (Rat.num_nonneg.mpr h0) (by positivity)
  unfold astype_int32
  rw [htd, ← Rat.floor_def, hfl, Int.emod_eq_of_lt (by omega) (by omega)]
  omega

/-- C2: the ladder np.linspace(5000, 50000, 15).astype(int32) built by the
extrapolation entry points (score_infinity.py lines 103 and 158 with
min_fake = 5000, num_im = 50000, num_points = 15) has exactly 15 strictly
increasing integer entries, the first being 5000 and the last 50000. -/
theorem c2_ladder_shape :
    (fid_batches 5000 50000 15).length = 15 ∧
    List.Chain' (fun i j => i < j) (fid_batches 5000 50000 15) ∧
    (fid_batches 5000 50000 15).head? = some 5000 ∧
    (fid_batches 5000 50000 15).getLast? = some 50000 := by
  have h : fid_batches 5000 50000 15 =
      [5000, 8214, 11428, 14642, 17857, 21071, 24285, 27500, 30714, 33928,
       37142, 40357, 43571, 46785, 50000] := by
    unfold fid_batches np_linspace
    have e : List.range 15 = [0,1,2,3,4,5,6,7,8,9,10,11,12,13,14] := by rfl
    rw [e]
    simp only [List.map_cons, List.map_nil, List.cons.injEq, and_true]
    refine ⟨?_,?_,?_,?_,?_,?_,?_,?_,?_,?_,?_,?_,?_,?_,?_⟩ <;>
      · apply astype_int32_of_nonneg <;> norm_num
  rw [h]
  refine ⟨rfl, ?_, rfl, rfl⟩
  simp only [List.chain'_cons, List.chain'_singleton, and_true]
  norm_num

/-- C1: for any real constants a and b and any strictly increasing ladder of
positive sample sizes with at least two points, fitting the ordinary
least-squares line of score_infinity.py lines 114-116 / 171-173 to the
points (1/N, a + b/N) and evaluating the fitted line at 1/N = 0 recovers
exactly the intercept a, whichever ladder was used.  In the exact-rational
model of float arithmetic the recovery is exact, which is the idealized
form of recovery within floating tolerance. -/
theorem c1_regression_recovers_intercept (a b : ℝ) (ladder : List ℕ)
    (hlen : 2 ≤ ladder.length) (hchain : List.Chain' (fun m n => m < n) ladder)
    (hpos : ∀ N ∈ ladder, 0 < N) :
    reg_predict (ladder.map fun N => 1 / (N : ℝ))
      ((ladder.map fun N => 1 / (N : ℝ)).map fun x => a + b * x) 0 = a := by
  rcases ladder with _ | ⟨N0, t⟩
  · simp at hlen
  rcases t with _ | ⟨N1, rest⟩
  · simp at hlen
  set xs := (N0 :: N1 :: rest).map (fun N => 1 / (N : ℝ)) with hxs
  have hne : xs ≠ [] := by simp [hxs]
  have h01 : N0 < N1 := (List.chain'_cons.mp hchain).1
  have hN0 : 0 < N0 := hpos N0 (by simp)
  have huv : (1 / (N0 : ℝ)) ≠ 1 / (N1 : ℝ) := by
    have hcast : (N0 : ℝ) < (N1 : ℝ) := by exact_mod_cast h01
    have hlt : 1 / (N1 : ℝ) < 1 / (N0 : ℝ) :=
      one_div_lt_one_div_of_lt (by exact_mod_cast hN0) hcast
    exact (ne_of_lt hlt).symm
  have hu : (1 / (N0 : ℝ)) ∈ xs := List.mem_map_of_mem _ (by simp)
  have hv : (1 / (N1 : ℝ)) ∈ xs := List.mem_map_of_mem _ (by simp)
  have hsxx := sxx_ne_zero xs _ _ hu hv huv
  have hslope : ols_slope xs (xs.map fun x => a + b * x) = b := by
    unfold ols_slope
    rw [sxy_affine xs a b hne]
    exact mul_div_cancel_right₀ b hsxx
  have hint : ols_intercept xs (xs.map fun x => a + b * x) = a := by
    unfold ols_intercept
    rw [hslope, list_mean_map_affine xs a b hne]
    ring
  unfold reg_predict
  rw [hint, hslope]
  ring

/-- Witness for c1_regression_recovers_intercept: ladder [1, 2] with
a = 1, b = 2. -/
theorem c1_regression_recovers_intercept_witness :
    reg_predict (([1, 2] : List ℕ).map fun N => 1 / (N : ℝ))
      ((([1, 2] : List ℕ).map fun N => 1 / (N : ℝ)).map fun x => 1 + 2 * x) 0 = 1 :=
  c1_regression_recovers_intercept 1 2 [1, 2] (by norm_num)
    (by norm_num [List.chain'_cons, List.chain'_singleton]) (by norm_num)

/-- Embeds np.mean(act, axis=0) on a rectangular row-major matrix
(score_infinity.py lines 147, 165, 376): the vector of column means. -/
def np_mean_axis0 (m : List (List ℚ)) : List ℚ :=
  (List.range (m.headD []).length).map
    (fun j => list_mean (m.map (fun row => row.getD j 0)))

/-- Embeds np.cov(act, rowvar=False) (score_infinity.py lines 147, 165, 376):
rows are observations, columns are variables, default ddof = 1. -/
def np_cov (m : List (List ℚ)) : List (List ℚ) :=
  (List.range (m.headD []).length).map (fun i =>
    (List.range (m.headD []).length).map (fun j =>
      (m.map (fun row =>
        (row.getD i 0 - list_mean (m.map (fun r => r.getD i 0))) *
        (row.getD j 0 - list_mean (m.map (fun r => r.getD j 0))))).sum /
      ((m.length : ℚ) - 1)))

/-- Embeds numpy_calculate_frechet_distance (score_infinity.py lines
401-453).  Line 419-422 (np.atleast_1d twice and np.atleast_2d on sigma1)
succeed; line 423 evaluates the attribute np.atleadt_2d, a misspelling of
np.atleast_2d that does not exist in numpy, so every call raises
AttributeError there.  The rest of the body -- the shape assertions, the
matrix square root with the eps-regularized retry, the imaginary-component
check (itself misspelled np.allcose at line 444) and the trace computation
(misspelled np.tr at lines 450 and 452-453) -- is unreachable. -/
def numpy_calculate_frechet_distance (mu1 : List ℚ) (sigma1 : List (List ℚ))
    (mu2 : List ℚ) (sigma2 : List (List ℚ)) (eps : ℚ) : Except PyError ℚ :=
  Except.error (PyError.attributeError "module numpy has no attribute atleadt_2d")

/-- C3: the stability policy of the Frechet distance (regularized retry on a
non-finite square root, failure with the maximum imaginary magnitude when
the imaginary parts exceed tolerance, otherwise a returned distance) never
executes: every call of numpy_calculate_frechet_distance raises
AttributeError at line 423 because of the np.atleadt_2d misspelling, so no
distance value is ever returned. -/
theorem c3_frechet_always_attribute_error (mu1 : List ℚ) (sigma1 : List (List ℚ))
    (mu2 : List ℚ) (sigma2 : List (List ℚ)) (eps : ℚ) :
    numpy_calculate_frechet_distance mu1 sigma1 mu2 sigma2 eps =
      Except.error (PyError.attributeError "module numpy has no attribute atleadt_2d") :=
  rfl

/-- Embeds the ladder loop of calculate_FID_infinity_path (score_infinity.py
lines 160-167): for each ladder entry, shuffle the pool in place (the
realizations of np.random.shuffle are supplied by the shuffles argument),
take the first n activations, form their mean and covariance and call the
Frechet distance against the real statistics.  The pool passed to the next
iteration is the shuffled pool, matching the in-place mutation. -/
def fid_loop (shuffles : ℕ → List (List ℚ) → List (List ℚ))
    (real_m : List ℚ) (real_s : List (List ℚ)) :
    List (List ℚ) → List ℤ → ℕ → Except PyError (List ℚ)
  | _, [], _ => Except.ok []
  | acts, n :: rest, k =>
    let acts2 := shuffles k acts
    let slice := acts2.take n.toNat
    match numpy_calculate_frechet_distance (np_mean_axis0 slice) (np_cov slice)
        real_m real_s (1 / 1000000) with
    | Except.error e => Except.error e
    | Except.ok fid =>
      match fid_loop shuffles real_m real_s acts2 rest (k + 1) with
      | Except.error e => Except.error e
      | Except.ok fids => Except.ok (fid :: fids)

/-- Embeds calculate_FID_infinity_path (score_infinity.py lines 120-175)
from the point where the real statistics (real_m, real_s) and the fake
activation pool have been produced by the external loading collaborators:
assert that the pool strictly exceeds min_fake (line 152), build the
ladder (line 158), run the ladder loop (lines 161-167) and fit/evaluate
the regression at 1/N = 0 (lines 171-173). -/
def calculate_FID_infinity_path (shuffles : ℕ → List (List ℚ) → List (List ℚ))
    (real_m : List ℚ) (real_s : List (List ℚ))
    (fake_acts : List (List ℚ)) (min_fake num_points : ℕ) : Except PyError ℚ :=
  if min_fake < fake_acts.length then
    let batches := fid_batches min_fake fake_acts.length num_points
    match fid_loop shuffles real_m real_s fake_acts batches 0 with
    | Except.error e => Except.error e
    | Except.ok fids =>
      Except.ok (reg_predict (batches.map fun (n : ℤ) => 1 / (n : ℚ)) fids 0)
  else
    Except.error (PyError.assertionError
      "number of fake data msut be greater than minimum point for extrapolation")

/-- Embeds np.mean(pred_chunk) with no axis argument (score_infinity.py
line 395): the scalar mean over all entries of the matrix. -/
noncomputable def np_mean_all (m : List (List ℝ)) : ℝ :=
  (m.map List.sum).sum / (((m.map List.length).sum : ℕ) : ℝ)

/-- Embeds np.std of a 1-D array: population standard deviation. -/
noncomputable def np_std (l : List ℝ) : ℝ :=
  Real.sqrt ((l.map (fun x => (x - list_mean l) ^ 2)).sum / (l.length : ℝ))

/-- Embeds calculate_inception_score (score_infinity.py lines 391-398).
For each of num_splits contiguous chunks: elementwise
p * (log p - log (np.mean(chunk))) -- note the axis-free np.mean, which is
the scalar grand mean of the chunk, not the per-class mean vector -- then
sum over classes, average over examples, exponentiate.  Returns the mean
and the standard deviation over the chunk scores. -/
noncomputable def calculate_inception_score (pred : List (List ℝ))
    (num_splits : ℕ) : ℝ × ℝ :=
  let scores := (List.range num_splits).map (fun index =>
    let chunk := (pred.drop (index * (pred.length / num_splits))).take
      ((index + 1) * (pred.length / num_splits) - index * (pred.length / num_splits))
    let kl_rows := chunk.map (fun row =>
      (row.map (fun p => p * (Real.log p - Real.log (np_mean_all chunk)))).sum)
    Real.exp (list_mean kl_rows))
  (list_mean scores, np_std scores)

/-- Embeds the ladder loop of calculate_IS_infinity_path (score_infinity.py
lines 258-263): shuffle the logits pool in place, take the first n
probability vectors, compute the single-chunk inception score. -/
noncomputable def is_loop (shuffles : ℕ → List (List ℝ) → List (List ℝ)) :
    List (List ℝ) → List ℤ → ℕ → List ℝ
  | _, [], _ => []
  | logits, n :: rest, k =>
    let logits2 := shuffles k logits
    (calculate_inception_score (logits2.take n.toNat) 1).1 ::
      is_loop shuffles logits2 rest (k + 1)

/-- Embeds calculate_IS_infinity_path (score_infinity.py lines 226-270)
from the point where the probability-vector pool has been produced by the
external loading collaborators: assert that the pool strictly exceeds
min_fake (line 250), build the ladder (line 256), run the ladder loop
(lines 259-263) and fit/evaluate the regression at 1/N = 0 (lines 267-268). -/
noncomputable def calculate_IS_infinity_path
    (shuffles : ℕ → List (List ℝ) → List (List ℝ))
    (logits : List (List ℝ)) (min_fake num_points : ℕ) : Except PyError ℝ :=
  if min_fake < logits.length then
    let batches := fid_batches min_fake logits.length num_points
    Except.ok (reg_predict (batches.map fun (n : ℤ) => 1 / (n : ℝ))
      (is_loop shuffles logits batches 0) 0)
  else
    Except.error (PyError.assertionError
      "number of fake data must be greater than the minimum point for extrapolation")

theorem fid_loop_cons (shuffles : ℕ → List (List ℚ) → List (List ℚ))
    (real_m : List ℚ) (real_s : List (List ℚ)) (acts : List (List ℚ))
    (n : ℤ) (rest : List ℤ) (k : ℕ) :
    fid_loop shuffles real_m real_s acts (n :: rest) k =
      Except.error (PyError.attributeError "module numpy has no attribute atleadt_2d") :=
  rfl

/-- C4: each path-based entry point checks its precondition first.  When the
available pool holds at most min_fake activations, the call fails with the
assertion (configuration) error before any metric value is computed; when
the pool strictly exceeds min_fake, no assertion error is ever produced
(the FID path can still fail later, but only with the AttributeError of the
broken Frechet distance, never with the configuration error). -/
theorem c4_min_fake_precondition
    (shuffA shuffB : ℕ → List (List ℚ) → List (List ℚ))
    (shuffC shuffD : ℕ → List (List ℝ) → List (List ℝ))
    (real_m : List ℚ) (real_s : List (List ℚ))
    (A B : List (List ℚ)) (C D : List (List ℝ)) (mf pts : ℕ)
    (hA : A.length ≤ mf) (hB : mf < B.length)
    (hC : C.length ≤ mf) (hD : mf < D.length) :
    calculate_FID_infinity_path shuffA real_m real_s A mf pts =
      Except.error (PyError.assertionError
        "number of fake data msut be greater than minimum point for extrapolation") ∧
    (∀ s, calculate_FID_infinity_path shuffB real_m real_s B mf pts ≠
      Except.error (PyError.assertionError s)) ∧
    calculate_IS_infinity_path shuffC C mf pts =
      Except.error (PyError.assertionError
        "number of fake data must be greater than the minimum point for extrapolation") ∧
    (∀ s, calculate_IS_infinity_path shuffD D mf pts ≠
      Except.error (PyError.assertionError s)) := by
  refine ⟨?_, ?_, ?_, ?_⟩
  · unfold calculate_FID_infinity_path
    rw [if_neg (not_lt.mpr hA)]
  · intro s h
    unfold calculate_FID_infinity_path at h
    rw [if_pos hB] at h
    cases hb : fid_batches mf B.length pts with
    | nil =>
      rw [hb] at h
      simp only [fid_loop] at h
      exact Except.noConfusion h
    | cons n rest =>
      rw [hb] at h
      simp only [fid_loop_cons] at h
      injection h with h2
      injection h2
  · unfold calculate_IS_infinity_path
    rw [if_neg (not_lt.mpr hC)]
  · intro s h
    unfold calculate_IS_infinity_path at h
    rw [if_pos hD] at h
    exact Except.noConfusion h

/-- Witness for c4_min_fake_precondition: identity shuffles, empty pools
against min_fake = 0 for the failing side, two-element pools for the
passing side. -/
theorem c4_min_fake_precondition_witness :
    calculate_FID_infinity_path (fun _ l => l) [] [] [] 0 15 =
      Except.error (PyError.assertionError
        "number of fake data msut be greater than minimum point for extrapolation") ∧
    (∀ s, calculate_FID_infinity_path (fun _ l => l) [] [] [[1], [2]] 0 15 ≠
      Except.error (PyError.assertionError s)) ∧
    calculate_IS_infinity_path (fun _ l => l) [] 0 15 =
      Except.error (PyError.assertionError
        "number of fake data must be greater than the minimum point for extrapolation") ∧
    (∀ s, calculate_IS_infinity_path (fun _ l => l) [[1], [2]] 0 15 ≠
      Except.error (PyError.assertionError s)) :=
  c4_min_fake_precondition (fun _ l => l) (fun _ l => l) (fun _ l => l) (fun _ l => l)
    [] [] [] [[1], [2]] [] [[1], [2]] 0 15
    (by simp) (by simp) (by simp) (by simp)

/-- C5: the claim that a batch of identical probability vectors always
yields inception score exactly 1 fails on the code: because line 395 calls
np.mean(pred_chunk) without an axis argument, the per-example KL divergence
is taken against the scalar grand mean of the chunk rather than the mean
probability vector.  At the batch of two identical rows (3/4, 1/4) the
single-chunk score evaluates to exp(3/4 log(3/4) + 1/4 log(1/4) - log(1/2)),
which differs from 1. -/
theorem c5_identical_rows_score_ne_one :
    (calculate_inception_score [[3 / 4, 1 / 4], [3 / 4, 1 / 4]] 1).1 ≠ 1 := by
  have hred : (calculate_inception_score [[3 / 4, 1 / 4], [3 / 4, 1 / 4]] 1).1 =
      Real.exp (3 / 4 * Real.log (3 / 4) + 1 / 4 * Real.log (1 / 4) - Real.log (1 / 2)) := by
    simp only [calculate_inception_score]
    have hr : List.range 1 = [0] := rfl
    rw [hr]
    simp only [List.map_cons, List.map_nil, List.sum_cons, List.sum_nil]
    norm_num [np_mean_all, list_mean]
    ring_nf
  rw [hred]
  intro h0
  have h := congrArg Real.log h0
  rw [Real.log_exp, Real.log_one] at h
  have h34 : Real.log ((3 : ℝ) / 4) = Real.log 3 - 2 * Real.log 2 := by
    rw [show (3 : ℝ) / 4 = 3 / 2 ^ 2 by norm_num,
      Real.log_div (by norm_num) (by norm_num), Real.log_pow]
    push_cast
    ring
  have h14 : Real.log ((1 : ℝ) / 4) = -(2 * Real.log 2) := by
    rw [show (1 : ℝ) / 4 = 1 / 2 ^ 2 by norm_num,
      Real.log_div (by norm_num) (by norm_num), Real.log_one, Real.log_pow]
    push_cast
    ring
  have h12 : Real.log ((1 : ℝ) / 2) = -Real.log 2 := by
    rw [one_div, Real.log_inv]
  rw [h34, h14, h12] at h
  have h3 : 3 * Real.log 3 = 4 * Real.log 2 := by linarith
  have he : Real.log (27 : ℝ) = Real.log (16 : ℝ) := by
    rw [show (27 : ℝ) = 3 ^ 3 by norm_num, show (16 : ℝ) = 2 ^ 4 by norm_num,
      Real.log_pow, Real.log_pow]
    push_cast
    linarith
  have h2716 : (27 : ℝ) = 16 := by
    have e27 := Real.exp_log (show (0 : ℝ) < 27 by norm_num)
    have e16 := Real.exp_log (show (0 : ℝ) < 16 by norm_num)
    rw [← e27, ← e16, he]
  norm_num at h2716

/-- Embeds to_img (score_infinity.py lines 362-368): rescale each pixel
from the generator range by x = 0.5 * (x + 1) and clamp to the unit
interval. -/
noncomputable def to_img (x : List (List ℝ)) : List (List ℝ) :=
  x.map (fun row => row.map (fun v => min (max (0.5 * (v + 1)) 0) 1))

/-- Embeds F.softmax(logits_val, 1) on a single row of logits. -/
noncomputable def softmax_row (v : List ℝ) : List ℝ :=
  v.map (fun x => Real.exp x / (v.map Real.exp).sum)

/-- Embeds accumulate_activations (score_infinity.py lines 341-358).  The
generator, the feature extractor and the sampler draws are supplied as
functions; the loop runs ceil(num_im / batch_size) times, rescales the
generated batch with to_img, collects pooled features and softmax
probabilities.  Line 355 rebinds the name pool to the concatenated tensor
truncated to num_im.  Line 356 then evaluates torch.cat(pool, 0) where
pool is the tensor produced by line 355, not the list of per-batch
logits, and torch.cat rejects a tensor where a sequence of tensors is
required, so every call that reaches line 356 raises TypeError; the
accumulated softmax probabilities are discarded. -/
noncomputable def accumulate_activations
    (gen_model : List (List ℝ) → List (List ℝ))
    (inception_model : List (List ℝ) → List (List ℝ) × List (List ℝ))
    (num_im : ℕ) (z_sampler : ℕ → ℕ → List (List ℝ)) (batch_size : ℕ) :
    Except PyError (List (List ℝ) × List (List ℝ)) :=
  let num_batches := (num_im + batch_size - 1) / batch_size
  let pool_batches := (List.range num_batches).map
    (fun i => (inception_model (to_img (gen_model (z_sampler i batch_size)))).1)
  let _logit_batches := (List.range num_batches).map
    (fun i => ((inception_model (to_img (gen_model (z_sampler i batch_size)))).2).map
      softmax_row)
  let _pool := pool_batches.join.take num_im
  Except.error (PyError.typeError
    "cat argument tensors must be tuple of Tensors, not Tensor")

/-- C6: the claim that accumulate_activations returns num_im pooled feature
vectors together with num_im softmax probability vectors fails on the
code: line 356 reuses the name pool (a tensor after line 355) inside
torch.cat, so every call raises TypeError and neither sequence is ever
returned. -/
theorem c6_accumulate_activations_type_error
    (gen_model : List (List ℝ) → List (List ℝ))
    (inception_model : List (List ℝ) → List (List ℝ) × List (List ℝ))
    (num_im : ℕ) (z_sampler : ℕ → ℕ → List (List ℝ)) (batch_size : ℕ) :
    accumulate_activations gen_model inception_model num_im z_sampler batch_size =
      Except.error (PyError.typeError
        "cat argument tensors must be tuple of Tensors, not Tensor") :=
  rfl

/-- Embeds calculate_FID_infinity (score_infinity.py lines 70-118).  The
function load_inception_net called at line 91 is not defined in the source
file (Modelled from the spec: "load a pretrained inception model", an
external feature-extractor collaborator assumed to succeed), and the
sampler construction at line 94 succeeds.  Line 97 then calls
accumulate_activations with four positional arguments (gen_model,
inception_model, num_im, batch_size) while its definition at line 341
requires five (the z_sampler parameter is skipped), so Python raises
TypeError at the call itself, before the body of accumulate_activations or
any FID computation runs. -/
noncomputable def calculate_FID_infinity
    (gen_model : List (List ℝ) → List (List ℝ)) (ndim batch_size : ℕ)
    (gt_path : String) (num_im num_points : ℕ) : Except PyError ℚ :=
  Except.error (PyError.typeError
    "accumulate_activations missing 1 required positional argument batch_size")

/-- C10: the FID-from-model entry point always raises TypeError at its
invocation of accumulate_activations (four positional arguments against a
five-parameter signature) and therefore never returns an FID value. -/
theorem c10_fid_infinity_type_error
    (gen_model : List (List ℝ) → List (List ℝ)) (ndim batch_size : ℕ)
    (gt_path : String) (num_im num_points : ℕ) :
    calculate_FID_infinity gen_model ndim batch_size gt_path num_im num_points =
      Except.error (PyError.typeError
        "accumulate_activations missing 1 required positional argument batch_size") :=
  rfl

/-- Random sources consumed by randn_sampler.  torch.randn and the
NormalQMCEngine stream are external collaborators: randn maps a call
index, a row count and a dimension to a batch; qmc is the stream of
successive points produced by the engine (already mapped to normal space
by the inverse-CDF or Box-Muller transform chosen at construction);
permute supplies the realization of the torch.randperm reordering used at
each cache refill. -/
structure SamplerOracles where
  randn : ℕ → ℕ → ℕ → List (List ℚ)
  qmc : ℕ → List ℚ
  permute : ℕ → List (List ℚ) → List (List ℚ)

/-- State of a randn_sampler instance (score_infinity.py lines 43-50):
the declared dimension, the two construction flags, the cached point buffer
(empty at construction), how many engine points have been consumed, and
counters indexing the randn calls and the refills. -/
structure SamplerState where
  ndim : ℕ
  useSobol : Bool
  cache : Bool
  cachedPoints : List (List ℚ)
  qmcPos : ℕ
  drawCount : ℕ
  refillCount : ℕ

/-- Embeds randn_sampler.__init__ (score_infinity.py lines 43-50). -/
def randn_sampler.init (ndim : ℕ) (use_sobol : Bool) (cache : Bool) : SamplerState :=
  { ndim := ndim, useSobol := use_sobol, cache := cache, cachedPoints := [],
    qmcPos := 0, drawCount := 0, refillCount := 0 }

/-- A block of n successive engine points starting at stream position pos. -/
def engine_draw (O : SamplerOracles) (pos n : ℕ) : List (List ℚ) :=
  (List.range n).map (fun i => O.qmc (pos + i))

/-- Embeds randn_sampler.draw (score_infinity.py lines 52-65).  With no
engine (use_sobol false) it returns a fresh torch.randn batch.  In cache
mode it refills the buffer with int(1e6) permuted engine points whenever
fewer than batch_size points remain (line 59), then serves the first
batch_size points and drops them from the buffer (lines 61-62).  In the
uncached engine mode, line 65 evaluates self.sampler.draw(batch_size) but
the result is not returned: the Python function falls off the end and
returns None, modelled here as the value none. -/
def randn_sampler.draw (O : SamplerOracles) (s : SamplerState) (batch_size : ℕ) :
    Option (List (List ℚ)) × SamplerState :=
  if s.useSobol = false then
    (some (O.randn s.drawCount batch_size s.ndim),
     { s with drawCount := s.drawCount + 1 })
  else if s.cache then
    let s1 :=
      if s.cachedPoints.length < batch_size then
        { s with
          cachedPoints := O.permute s.refillCount (engine_draw O s.qmcPos 1000000),
          qmcPos := s.qmcPos + 1000000,
          refillCount := s.refillCount + 1 }
      else s
    (some (s1.cachedPoints.take batch_size),
     { s1 with cachedPoints := s1.cachedPoints.drop batch_size,
               drawCount := s1.drawCount + 1 })
  else
    (none, { s with qmcPos := s.qmcPos + batch_size, drawCount := s.drawCount + 1 })

/-- C7: the claim that draw(n) returns exactly n latent vectors in every
mode fails on the code: in the quasi-random uncached mode (use_sobol true,
cache false) the draw method advances the engine but is missing the
return statement at line 65, so the call returns None and no latent
vectors at all. -/
theorem c7_uncached_draw_returns_none (O : SamplerOracles) (ndim n : ℕ) :
    (randn_sampler.draw O (randn_sampler.init ndim true false) n).1 = none :=
  rfl

/-- State of a randn_sampler after an arbitrary sequence of draw calls of
the given sizes, starting from state s.  Composing randn_sampler.draw in
this way reaches every state a sampler instance can be in during its
lifetime. -/
def draws_from (O : SamplerOracles) (s : SamplerState) : List ℕ → SamplerState
  | [] => s
  | n :: rest => draws_from O ((randn_sampler.draw O s n).2) rest

/-- Invariant of every reachable state of a sampler constructed in
quasi-random cached mode: the flags stay set, the buffer holds pairwise
distinct points, and every buffered point is an engine-stream point whose
position has already been consumed (is below qmcPos), so any future
refill block is drawn from fresh positions. -/
def cache_inv (O : SamplerOracles) (s : SamplerState) : Prop :=
  s.useSobol = true ∧ s.cache = true ∧ s.cachedPoints.Nodup ∧
  ∀ v ∈ s.cachedPoints, ∃ i, i < s.qmcPos ∧ v = O.qmc i

theorem engine_draw_nodup (O : SamplerOracles)
    (hinj : Function.Injective O.qmc) (pos n : ℕ) :
    (engine_draw O pos n).Nodup := by
  unfold engine_draw
  refine (List.nodup_range n).map ?_
  intro a b hab
  have := hinj hab
  omega

theorem engine_draw_mem (O : SamplerOracles) {v : List ℚ} {pos n : ℕ}
    (hv : v ∈ engine_draw O pos n) :
    ∃ i, pos ≤ i ∧ i < pos + n ∧ v = O.qmc i := by
  unfold engine_draw at hv
  rcases List.mem_map.mp hv with ⟨j, hj, rfl⟩
  have hjn := List.mem_range.mp hj
  exact ⟨pos + j, by omega, by omega, rfl⟩

theorem draw_cached_refill (O : SamplerOracles) (s : SamplerState) (n : ℕ)
    (hsob : s.useSobol = true) (hc : s.cache = true)
    (hr : s.cachedPoints.length < n) :
    randn_sampler.draw O s n =
      (some ((O.permute s.refillCount (engine_draw O s.qmcPos 1000000)).take n),
       { s with
         cachedPoints := (O.permute s.refillCount (engine_draw O s.qmcPos 1000000)).drop n,
         qmcPos := s.qmcPos + 1000000,
         refillCount := s.refillCount + 1,
         drawCount := s.drawCount + 1 }) := by
  unfold randn_sampler.draw
  rw [hsob, hc]
  simp [hr]

theorem draw_cached_norefill (O : SamplerOracles) (s : SamplerState) (n : ℕ)
    (hsob : s.useSobol = true) (hc : s.cache = true)
    (hr : ¬ s.cachedPoints.length < n) :
    randn_sampler.draw O s n =
      (some (s.cachedPoints.take n),
       { s with cachedPoints := s.cachedPoints.drop n,
                drawCount := s.drawCount + 1 }) := by
  unfold randn_sampler.draw
  rw [hsob, hc]
  simp [hr, hsob, hc]

theorem cache_inv_draw (O : SamplerOracles) (s : SamplerState) (n : ℕ)
    (hinj : Function.Injective O.qmc)
    (hperm : ∀ k l, List.Perm (O.permute k l) l)
    (hs : cache_inv O s) : cache_inv O ((randn_sampler.draw O s n).2) := by
  obtain ⟨hsob, hc, hnd, hmem⟩ := hs
  by_cases hr : s.cachedPoints.length < n
  · rw [draw_cached_refill O s n hsob hc hr]
    dsimp only
    refine ⟨hsob, hc, ?_, ?_⟩
    · have hbnd : (O.permute s.refillCount (engine_draw O s.qmcPos 1000000)).Nodup :=
        ((hperm _ _).nodup_iff).mpr (engine_draw_nodup O hinj _ _)
      exact hbnd.sublist (List.drop_sublist _ _)
    · intro v hv
      have hv1 : v ∈ O.permute s.refillCount (engine_draw O s.qmcPos 1000000) :=
        List.mem_of_mem_drop hv
      have hv2 := (hperm _ _).mem_iff.mp hv1
      obtain ⟨j, hj1, hj2, rfl⟩ := engine_draw_mem O hv2
      refine ⟨j, ?_, rfl⟩
      show j < s.qmcPos + 1000000
      omega
  · rw [draw_cached_norefill O s n hsob hc hr]
    dsimp only
    refine ⟨hsob, hc, hnd.sublist (List.drop_sublist _ _), ?_⟩
    intro v hv
    exact hmem v (List.mem_of_mem_drop hv)

theorem cache_inv_draws_from (O : SamplerOracles)
    (hinj : Function.Injective O.qmc)
    (hperm : ∀ k l, List.Perm (O.permute k l) l)
    (l : List ℕ) (s : SamplerState) (hs : cache_inv O s) :
    cache_inv O (draws_from O s l) := by
  induction l generalizing s with
  | nil => exact hs
  | cons n rest ih => exact ih _ (cache_inv_draw O s n hinj hperm hs)

theorem cache_inv_init (O : SamplerOracles) (ndim : ℕ) :
    cache_inv O (randn_sampler.init ndim true true) :=
  ⟨rfl, rfl, List.nodup_nil, fun v hv => absurd hv (List.not_mem_nil v)⟩

/-- Core of C8: from any state satisfying the cached-mode invariant, the
next two draw calls return disjoint batches whenever their sizes sum to
less than the refill block of 1,000,000.  If the first draw refills, the
leftover buffer still holds more than n2 points, so both batches are
segments of one duplicate-free block; if only the second draw refills,
its batch comes from fresh stream positions while the first came from
already-consumed positions; if neither refills, the two batches are
disjoint segments of the duplicate-free buffer. -/
theorem cached_consecutive_disjoint (O : SamplerOracles) (s : SamplerState)
    (n1 n2 : ℕ) (hs : cache_inv O s)
    (h1 : 0 < n1) (h2 : 0 < n2) (hsum : n1 + n2 < 1000000)
    (hinj : Function.Injective O.qmc)
    (hperm : ∀ k l, List.Perm (O.permute k l) l) :
    List.Disjoint
      ((randn_sampler.draw O s n1).1.getD [])
      ((randn_sampler.draw O (randn_sampler.draw O s n1).2 n2).1.getD []) := by
  obtain ⟨hsob, hc, hnd, hmem⟩ := hs
  by_cases hr1 : s.cachedPoints.length < n1
  · set block := O.permute s.refillCount (engine_draw O s.qmcPos 1000000) with hblock
    have hblen : block.length = 1000000 :=
      (hperm _ _).length_eq.trans (by simp [engine_draw])
    have hbnd : block.Nodup :=
      ((hperm _ _).nodup_iff).mpr (engine_draw_nodup O hinj _ _)
    rw [draw_cached_refill O s n1 hsob hc hr1]
    dsimp only
    have hr2 : ¬ ((block.drop n1).length < n2) := by
      rw [List.length_drop, hblen]; omega
    rw [draw_cached_norefill O
      ({ s with cachedPoints := block.drop n1, qmcPos := s.qmcPos + 1000000,
                refillCount := s.refillCount + 1, drawCount := s.drawCount + 1 })
      n2 hsob hc hr2]
    dsimp only
    simp only [Option.getD_some]
    have happ : (block.take n1 ++ block.drop n1).Nodup := by
      rw [List.take_append_drop]; exact hbnd
    have hdisj := (List.nodup_append.mp happ).2.2
    intro v hv1 hv2
    exact hdisj hv1 (List.take_subset _ _ hv2)
  · rw [draw_cached_norefill O s n1 hsob hc hr1]
    dsimp only
    by_cases hr2 : (s.cachedPoints.drop n1).length < n2
    · rw [draw_cached_refill O
        ({ s with cachedPoints := s.cachedPoints.drop n1, drawCount := s.drawCount + 1 })
        n2 hsob hc hr2]
      dsimp only
      simp only [Option.getD_some]
      intro v hv1 hv2
      obtain ⟨i, hi, hvi⟩ := hmem v (List.take_subset _ _ hv1)
      have hv2a := List.take_subset _ _ hv2
      have hv2b := (hperm _ _).mem_iff.mp hv2a
      obtain ⟨j, hj1, hj2, hvj⟩ := engine_draw_mem O hv2b
      have : i = j := hinj (hvi.symm.trans hvj)
      omega
    · rw [draw_cached_norefill O
        ({ s with cachedPoints := s.cachedPoints.drop n1, drawCount := s.drawCount + 1 })
        n2 hsob hc hr2]
      dsimp only
      simp only [Option.getD_some]
      have happ : (s.cachedPoints.take n1 ++ s.cachedPoints.drop n1).Nodup := by
        rw [List.take_append_drop]; exact hnd
      have hdisj := (List.nodup_append.mp happ).2.2
      intro v hv1 hv2
      exact hdisj hv1 (List.take_subset _ _ hv2)

/-- C8: for every sampler constructed in quasi-random cached mode and every
two consecutive draw calls anywhere in its lifetime (prior lists the sizes
of all preceding draw calls), if the two requested sizes sum to less than
the refill block of 1,000,000 then the two returned batches share no
latent vector: the cache is consumed without replacement.  The engine
stream is assumed to produce pairwise distinct points (hinj) and each
torch.randperm realization to be a permutation of its block (hperm). -/
theorem c8_cached_draws_disjoint (O : SamplerOracles) (ndim n1 n2 : ℕ)
    (prior : List ℕ)
    (h1 : 0 < n1) (h2 : 0 < n2) (hsum : n1 + n2 < 1000000)
    (hinj : Function.Injective O.qmc)
    (hperm : ∀ k l, List.Perm (O.permute k l) l) :
    List.Disjoint
      ((randn_sampler.draw O
        (draws_from O (randn_sampler.init ndim true true) prior) n1).1.getD [])
      ((randn_sampler.draw O
        (randn_sampler.draw O
          (draws_from O (randn_sampler.init ndim true true) prior) n1).2 n2).1.getD []) :=
  cached_consecutive_disjoint O _ n1 n2
    (cache_inv_draws_from O hinj hperm prior _ (cache_inv_init O ndim))
    h1 h2 hsum hinj hperm

/-- Witness for c8_cached_draws_disjoint: the stream i maps to the
singleton vector [i], each permute realization is the identity, one prior
draw call of size one has been served, and the two consecutive draws under
scrutiny request one vector each. -/
theorem c8_cached_draws_disjoint_witness :
    List.Disjoint
      ((randn_sampler.draw ⟨fun _ _ _ => [], fun i => [(i : ℚ)], fun _ l => l⟩
        (draws_from ⟨fun _ _ _ => [], fun i => [(i : ℚ)], fun _ l => l⟩
          (randn_sampler.init 1 true true) [1]) 1).1.getD [])
      ((randn_sampler.draw ⟨fun _ _ _ => [], fun i => [(i : ℚ)], fun _ l => l⟩
        (randn_sampler.draw ⟨fun _ _ _ => [], fun i => [(i : ℚ)], fun _ l => l⟩
          (draws_from ⟨fun _ _ _ => [], fun i => [(i : ℚ)], fun _ l => l⟩
            (randn_sampler.init 1 true true) [1]) 1).2 1).1.getD []) :=
  c8_cached_draws_disjoint ⟨fun _ _ _ => [], fun i => [(i : ℚ)], fun _ l => l⟩ 1 1 1 [1]
    (by norm_num) (by norm_num) (by norm_num)
    (fun a b hab => by
      have : ((a : ℚ)) = (b : ℚ) := (List.cons.inj hab).1
      exact_mod_cast this)
    (fun k l => List.Perm.refl l)

/-- Embeds the evolution of the activation pool across the ladder loop
(score_infinity.py lines 106-108 and 161-164): each ladder iteration k
executes np.random.shuffle on the pool in place before slicing, so the
pool object observed after k iterations is the original pool transformed
by the first k shuffle realizations (supplied by the shuffles argument);
the slicing and the metric computation do not modify the pool further. -/
def pool_after {α : Type} (shuffles : ℕ → List α → List α) (acts : List α) :
    ℕ → List α
  | 0 => acts
  | k + 1 => shuffles k (pool_after shuffles acts k)

/-- Counterexample to C9: with a pool of two activation vectors and a
shuffle realization that reverses the pool (a permutation np.random.shuffle
can produce), the pool observed by the second ladder point differs from
the original pool, so the resampling step does mutate the pool object
shared across ladder iterations. -/
theorem c9_pool_mutated_counterexample :
    pool_after (fun _ l => l.reverse) [[(0 : ℚ)], [1]] 1 ≠ [[(0 : ℚ)], [1]] ∧
    List.Perm (List.reverse [[(0 : ℚ)], [1]]) [[(0 : ℚ)], [1]] := by
  constructor
  · intro h
    have : ([[(1 : ℚ)], [0]] : List (List ℚ)) = [[(0 : ℚ)], [1]] := h
    simp at this
  · exact List.reverse_perm _

/-- C9 amended: each ladder-point resampling step shuffles the shared pool
in place, so subsequent ladder points observe a reordering of the pool
rather than the original object; the multiset of activations is preserved
(every intermediate pool is a permutation of the original, with no entries
added, removed or altered), but the order is not. -/
theorem c9_pool_permutation_invariant {α : Type}
    (shuffles : ℕ → List α → List α)
    (hperm : ∀ k l, List.Perm (shuffles k l) l) (acts : List α) (k : ℕ) :
    List.Perm (pool_after shuffles acts k) acts := by
  induction k with
  | zero => exact List.Perm.refl acts
  | succ k ih => exact (hperm k _).trans ih

/-- Witness for c9_pool_permutation_invariant: identity shuffles on a
one-element pool, one ladder iteration. -/
theorem c9_pool_permutation_invariant_witness :
    List.Perm (pool_after (fun _ l => l) [[(0 : ℚ)]] 1) [[(0 : ℚ)]] :=
  c9_pool_permutation_invariant (fun _ l => l) (fun _ l => List.Perm.refl l)
    [[(0 : ℚ)]] 1
